import Mathlib

/-!
Verification of the graph-engine specification of web-app-gomez.

The repository ships the React frontend (src/frontend) and the README; the
FastAPI backend (backend/app/core: GraphStore, MetricsEngine, the Citas A/B
CitationClassifier) is not part of the visible sources.  Definitions for those
components are therefore modelled from the specification text (spec.md §3,
§4.1, §4.2, §4.3) and from the report shape in components/CitasABModal.tsx;
definitions for the frontend behaviour (handleSearch, handleLoad,
importarGrafo) are translated directly from src/frontend/src/App.tsx and
src/frontend/src/services/api.ts.
-/

namespace WebAppGomez

/-! ### CitationClassifier ("Citas A/B") -/

/-- Classification label of a vertex, spec §3: one of A, B, AB, S, unset.
Owned and mutated only by CitationClassifier. -/
inductive Etiqueta where
  | unset
  | A
  | B
  | AB
  | S
deriving DecidableEq, Repr

/-- Modelled from the spec: the part of a vertex the CitationClassifier reads
(backend/app/core is missing from the sources) — its id and its ordered list
of author names (spec §3, order irrelevant for matching). -/
structure VerticeAB where
  id : String
  autores : List String
deriving DecidableEq, Repr

/-- Modelled from the spec: the snapshot the CitationClassifier runs over —
the vertex list and the directed edge list (citer, cited) of the GraphStore
(spec §4.3; the backend core is missing from the sources). -/
structure GrafoAB where
  vertices : List VerticeAB
  aristas : List (String × String)
deriving DecidableEq, Repr

/-- Author list of the vertex with the given id; empty when the id is absent. -/
def autoresDe (g : GrafoAB) (x : String) : List String :=
  match g.vertices.find? (fun v => v.id = x) with
  | some v => v.autores
  | none => []

/-- A name lowered character by character, the comparison key for the
case-insensitive exact match of Pass 2. -/
def nombreMinusculas (s : String) : List Char :=
  s.data.map Char.toLower

/-- Modelled from the spec: whether two author sets intersect under
case-insensitive exact name match (spec §4.3 Pass 2: "case-insensitive name
match; exact string match is the defined comparison — no fuzzy matching"). -/
def comparteAutores (a b : List String) : Bool :=
  a.any (fun x => b.any (fun y => nombreMinusculas x = nombreMinusculas y))

/-- Modelled from the spec: whether the directed edge e is a self-citation
pair — both endpoints have author lists and the author sets intersect
(spec §4.3 Pass 2).  An empty author list shares nothing, so the
"both endpoints have author lists" condition is subsumed. -/
def autoCita (g : GrafoAB) (e : String × String) : Bool :=
  comparteAutores (autoresDe g e.1) (autoresDe g e.2)

/-- Modelled from the spec: Pass 1 (Corrida 1) of the classifier — a vertex
with a non-empty author list is labeled A, a vertex without author
information is labeled S; ids outside the graph stay unset (spec §4.3). -/
def corrida1 (g : GrafoAB) : String → Etiqueta := fun x =>
  match g.vertices.find? (fun v => v.id = x) with
  | some v => if v.autores = [] then Etiqueta.S else Etiqueta.A
  | none => Etiqueta.unset

/-- Relabel the vertex x from A to B (the only transition Pass 2 makes). -/
def pintaB (lbl : String → Etiqueta) (x : String) : String → Etiqueta :=
  if lbl x = Etiqueta.A then Function.update lbl x Etiqueta.B else lbl

/-- Modelled from the spec: Pass 2 (Corrida 2) — process the directed edges in
the given order; for every self-citation pair relabel BOTH the citer and the
cited from A to B (spec §4.3 Pass 2). -/
def corrida2 (g : GrafoAB) (orden : List (String × String))
    (lbl : String → Etiqueta) : String → Etiqueta :=
  orden.foldl
    (fun acc e => if autoCita g e then pintaB (pintaB acc e.1) e.2 else acc)
    lbl

/-- Modelled from the spec: whether the B-labeled vertex x is a chain root —
it has no incoming edge from another B-labeled vertex with which it shares
the self-citation relation established in Pass 2 (spec §4.3 Pass 3). -/
def esRaiz (g : GrafoAB) (lbl : String → Etiqueta) (x : String) : Bool :=
  lbl x = Etiqueta.B &&
    !(g.aristas.any (fun e =>
      e.2 = x && e.1 ≠ x && lbl e.1 = Etiqueta.B && autoCita g e))

/-- Modelled from the spec: Pass 3 (Corrida 3) — among vertices labeled B,
chain roots are relabeled AB; the root test reads the fully materialized
output of Pass 2 (spec §4.3 Pass 3 and §9). -/
def corrida3 (g : GrafoAB) (lbl : String → Etiqueta) : String → Etiqueta :=
  fun x => if esRaiz g lbl x then Etiqueta.AB else lbl x

/-- Modelled from the spec: the full three-pass ClassifyCitations run over a
snapshot, edges processed in their stored order.  Labels are recomputed from
the current topology only (spec §4.3: reset to unset before every run). -/
def clasificarCitas (g : GrafoAB) : String → Etiqueta :=
  corrida3 g (corrida2 g g.aristas (corrida1 g))

/-- Modelled from the spec: the classifier state — the graph plus the
per-vertex labels written back to the store (spec §4.3). -/
structure EstadoClasificacion where
  grafo : GrafoAB
  etiquetas : String → Etiqueta

/-- Modelled from the spec: running ClassifyCitations on the store — topology
is unchanged, labels are fully recomputed from the current topology, never
layered on the previous labels (spec §3 invariants, §4.3 idempotence). -/
def correrClasificacion (s : EstadoClasificacion) : EstadoClasificacion :=
  { grafo := s.grafo, etiquetas := clasificarCitas s.grafo }



/-! ### Concrete example graph of the spec (§8, classification determinism) -/

/-- The three-vertex graph of spec §8: P1 by Alice, P2 by Alice and Bob,
P3 with no authors, and the single edge P1 → P2. -/
def grafoEjemplo : GrafoAB :=
  { vertices :=
      [ { id := "P1", autores := ["Alice"] }
      , { id := "P2", autores := ["Alice", "Bob"] }
      , { id := "P3", autores := [] } ]
  , aristas := [("P1", "P2")] }

/-- The vertex x touches a self-citation edge of the list l. -/
def tocaAutoCita (g : GrafoAB) (l : List (String × String)) (x : String) :
    Prop :=
  ∃ e ∈ l, autoCita g e = true ∧ (x = e.1 ∨ x = e.2)

instance (g : GrafoAB) (l : List (String × String)) (x : String) :
    Decidable (tocaAutoCita g l x) :=
  List.decidableBEx _ l

/-! ### GraphStore -/

/-- Modelled from the spec: the normalized vertex record the GraphStore
consumes and stores — {id, title, authors[], year?, venue?, doi?, abstract?,
citationCount, url?, layer, origin} (spec §6); every field but the id may be
absent, and an empty author list counts as absent for merging (spec §8). -/
structure Vertice where
  id : String
  title : Option String
  authors : List String
  year : Option Int
  venue : Option String
  doi : Option String
  abstract : Option String
  citationCount : Option Nat
  url : Option String
  layer : Option Nat
  origin : Option String
deriving DecidableEq, Repr

/-- Modelled from the spec: the normalized edge record {from, to, weight?}
(spec §6); `from` is a reserved word in Lean, so the endpoints are named
origen/destino as in the CitasABModal report rows. -/
structure AristaIn where
  origen : String
  destino : String
  weight : Option ℚ
deriving DecidableEq, Repr

/-- The incoming field wins when present, otherwise the stored one is kept. -/
def prefiere (nuevo viejo : Option α) : Option α :=
  match nuevo with
  | some x => some x
  | none => viejo

/-- The incoming author list wins when non-empty, otherwise the stored one is
kept (spec §8 fill-don't-erase for authors=[]). -/
def listaNueva (nueva vieja : List String) : List String :=
  if nueva = [] then vieja else nueva

/-- Modelled from the spec: attribute refresh of a stored vertex by an
incoming record with the same id — non-null incoming fields overwrite,
null/absent incoming fields preserve the existing values ("fill-don't-erase",
spec §4.1). -/
def refrescar (viejo nuevo : Vertice) : Vertice :=
  { id := viejo.id
  , title := prefiere nuevo.title viejo.title
  , authors := listaNueva nuevo.authors viejo.authors
  , year := prefiere nuevo.year viejo.year
  , venue := prefiere nuevo.venue viejo.venue
  , doi := prefiere nuevo.doi viejo.doi
  , abstract := prefiere nuevo.abstract viejo.abstract
  , citationCount := prefiere nuevo.citationCount viejo.citationCount
  , url := prefiere nuevo.url viejo.url
  , layer := prefiere nuevo.layer viejo.layer
  , origin := prefiere nuevo.origin viejo.origin }

/-- Modelled from the spec: a minimal stub vertex — id only, all other
fields empty (spec §4.1 stub creation for unknown edge endpoints). -/
def soloId (x : String) : Vertice :=
  { id := x, title := none, authors := [], year := none, venue := none
  , doi := none, abstract := none, citationCount := none, url := none
  , layer := none, origin := none }

/-- Modelled from the spec: the canonical vertex/edge collections of the
GraphStore (spec §4.1) — vertices indexed by id together with their insertion
order, the directed edge pairs in insertion order (no parallel edges), and
the current per-edge weights. -/
@[ext]
structure GraphStore where
  verts : String → Option Vertice
  orden : List String
  aristas : List (String × String)
  peso : String × String → ℚ

/-- Modelled from the spec: the counts returned by Merge — vertices_new,
vertices_updated, edges_new, edges_existing (spec §4.1). -/
structure MergeStats where
  vertices_new : Nat
  vertices_updated : Nat
  edges_new : Nat
  edges_existing : Nat
deriving DecidableEq, Repr

/-- Modelled from the spec: vertex insertion of Merge — insert by id, and if
the id already exists refresh the stored attributes with fill-don't-erase
semantics (spec §4.1); the Bool reports whether the vertex was new. -/
def insertaVertice (s : GraphStore) (v : Vertice) : GraphStore × Bool :=
  match s.verts v.id with
  | some o =>
      ({ s with verts := Function.update s.verts v.id (some (refrescar o v)) }
      , false)
  | none =>
      ({ s with verts := Function.update s.verts v.id (some v)
              , orden := s.orden ++ [v.id] }
      , true)

/-- Modelled from the spec: create the endpoint as a minimal stub vertex when
it does not yet exist (spec §4.1). -/
def creaTalon (s : GraphStore) (x : String) : GraphStore :=
  match s.verts x with
  | some _ => s
  | none =>
      { s with verts := Function.update s.verts x (some (soloId x))
             , orden := s.orden ++ [x] }

/-- Modelled from the spec: edge insertion of Merge — an edge already present
(matched on the ordered (from, to) pair) is a no-op except that the weight is
updated to the latest value; a new edge stub-creates its missing endpoints
and is appended (spec §3, §4.1); the Bool reports whether the edge was new. -/
def insertaArista (s : GraphStore) (a : AristaIn) : GraphStore × Bool :=
  let k := (a.origen, a.destino)
  let w := a.weight.getD 1
  if k ∈ s.aristas then
    ({ s with peso := Function.update s.peso k w }, false)
  else
    let s₂ := creaTalon (creaTalon s a.origen) a.destino
    ({ s₂ with aristas := s₂.aristas ++ [k]
             , peso := Function.update s₂.peso k w }
    , true)

/-- One Merge step over the vertex batch, accumulating the stats. -/
def pasoVertice (acc : GraphStore × MergeStats) (v : Vertice) :
    GraphStore × MergeStats :=
  let r := insertaVertice acc.1 v
  ( r.1
  , if r.2 then
      { acc.2 with vertices_new := acc.2.vertices_new + 1 }
    else
      { acc.2 with vertices_updated := acc.2.vertices_updated + 1 } )

/-- One Merge step over the edge batch, accumulating the stats. -/
def pasoArista (acc : GraphStore × MergeStats) (a : AristaIn) :
    GraphStore × MergeStats :=
  let r := insertaArista acc.1 a
  ( r.1
  , if r.2 then
      { acc.2 with edges_new := acc.2.edges_new + 1 }
    else
      { acc.2 with edges_existing := acc.2.edges_existing + 1 } )

/-- Modelled from the spec: Merge(vertices, edges) -> MergeStats — the vertex
batch is applied in order, then the edge batch (spec §4.1, §6). -/
def Merge (s : GraphStore) (vb : List Vertice) (eb : List AristaIn) :
    GraphStore × MergeStats :=
  eb.foldl pasoArista (vb.foldl pasoVertice (s, ⟨0, 0, 0, 0⟩))

/-- The vertex phase of Merge, store only. -/
def faseV (s : GraphStore) (vb : List Vertice) : GraphStore :=
  vb.foldl (fun t v => (insertaVertice t v).1) s

/-- The edge phase of Merge, store only. -/
def faseE (s : GraphStore) (eb : List AristaIn) : GraphStore :=
  eb.foldl (fun t a => (insertaArista t a).1) s

/-- Modelled from the spec: the vertex count of ComputeStatistics
(num_vertices in the EstadisticasResponse of types/grafo.ts). -/
def numVertices (s : GraphStore) : Nat :=
  s.orden.length

/-- Modelled from the spec: the edge count of ComputeStatistics
(num_aristas in the EstadisticasResponse of types/grafo.ts). -/
def numAristas (s : GraphStore) : Nat :=
  s.aristas.length

/-- Merge one incoming vertex into an optional stored slot: refresh when the
slot is occupied, store the record as given when it is free. -/
def mOpt (b : Option Vertice) (v : Vertice) : Option Vertice :=
  match b with
  | some o => some (refrescar o v)
  | none => some v

/-- The last present value of a list of optional fields (the survivor of a
sequence of fill-don't-erase overwrites applied to an empty slot). -/
def ultimo (l : List (Option α)) : Option α :=
  l.foldl (fun a x => prefiere x a) none

/-- The last non-empty list in a sequence of author-list overwrites applied
to an empty slot. -/
def ultimaListaNE (l : List (List String)) : List String :=
  l.foldl (fun a x => listaNueva x a) []

/-- The incoming vertices of a batch carrying the given id, in order. -/
def conId (x : String) (vb : List Vertice) : List Vertice :=
  vb.filter (fun v => v.id = x)

/-- The weight updates the edge phase of Merge applies, in batch order. -/
def actualizaPesos (p : String × String → ℚ) (eb : List AristaIn) :
    String × String → ℚ :=
  eb.foldl
    (fun q a => Function.update q (a.origen, a.destino) (a.weight.getD 1)) p

/-- The weight the last batch edge with the given ordered pair carries. -/
def pesoUltimo (eb : List AristaIn) (k : String × String) : Option ℚ :=
  ultimo (eb.map (fun a =>
    if (a.origen, a.destino) = k then some (a.weight.getD 1) else none))


/-- A stored vertex with rich metadata, used to exercise fill-don't-erase. -/
def verticeSmith : Vertice :=
  { id := "v1", title := some "Known Title", authors := ["A. Smith"]
  , year := some 2020, venue := some "VLDB", doi := none, abstract := none
  , citationCount := some 5, url := none, layer := some 0
  , origin := some "semantic_scholar" }

/-- An incoming record for the same id with no metadata at all. -/
def verticeVacio : Vertice :=
  { id := "v1", title := none, authors := [], year := none, venue := none
  , doi := none, abstract := none, citationCount := none, url := none
  , layer := none, origin := none }

/-- A store holding just the rich vertex. -/
def tiendaSmith : GraphStore :=
  { verts := fun x => if x = "v1" then some verticeSmith else none
  , orden := ["v1"], aristas := [], peso := fun _ => 1 }

/-- The empty GraphStore. -/
def tiendaVacia : GraphStore :=
  { verts := fun _ => none, orden := [], aristas := [], peso := fun _ => 1 }


/-! ### MetricsEngine -/

/-- Modelled from the spec: the snapshot the MetricsEngine reads — the vertex
id set and the directed edge set of the GraphStore (spec §4.2; the backend
core is missing from the sources). -/
structure GrafoM where
  V : Finset String
  E : Finset (String × String)
deriving DecidableEq

/-- Spec §3: every edge references vertices present in the same view. -/
def esValido (g : GrafoM) : Prop :=
  ∀ e ∈ g.E, e.1 ∈ g.V ∧ e.2 ∈ g.V

/-- A graph none of whose edges is a self-loop (id, id). -/
def sinLazos (g : GrafoM) : Prop :=
  ∀ e ∈ g.E, e.1 ≠ e.2

instance (g : GrafoM) : Decidable (esValido g) :=
  Finset.decidableDforallFinset

instance (g : GrafoM) : Decidable (sinLazos g) :=
  Finset.decidableDforallFinset

/-- Modelled from the spec: Density = |E| / (|V| * (|V| - 1)) for a directed
graph, defined as 0 when |V| < 2 (spec §4.2). -/
def densidad (g : GrafoM) : ℚ :=
  if g.V.card < 2 then 0
  else (g.E.card : ℚ) / ((g.V.card : ℚ) * ((g.V.card : ℚ) - 1))

/-- Modelled from the spec: the PageRank damping factor d = 0.85 (spec §4.2). -/
def amortiguacion : ℚ := 85 / 100

/-- Modelled from the spec: the PageRank convergence epsilon 1e-6 (spec §4.2). -/
def epsilonPR : ℚ := 1 / 1000000

/-- Modelled from the spec: the PageRank iteration cap 100 (spec §4.2). -/
def maxIteraciones : Nat := 100

/-- Out-degree of a vertex, derived from the edge collection (spec §4.1). -/
def gradoSalida (g : GrafoM) (u : String) : Nat :=
  (g.E.filter (fun e => e.1 = u)).card

/-- The total rank currently held by dangling (out-degree 0) vertices. -/
def masaColgante (g : GrafoM) (r : String → ℚ) : ℚ :=
  ∑ u in g.V.filter (fun u => gradoSalida g u = 0), r u

/-- Modelled from the spec: one PageRank power iteration — teleportation
(1 - d)/N plus d times the incoming link mass, with each dangling vertex's
rank redistributed uniformly over all vertices (spec §4.2). -/
def pasoPR (g : GrafoM) (r : String → ℚ) : String → ℚ := fun v =>
  if v ∈ g.V then
    (1 - amortiguacion) / (g.V.card : ℚ)
      + amortiguacion *
          ((∑ e in g.E.filter (fun e => e.2 = v),
              r e.1 / (gradoSalida g e.1 : ℚ))
            + masaColgante g r / (g.V.card : ℚ))
  else 0

/-- The L1 change between two rank vectors over the graph's vertices. -/
def diferenciaL1 (g : GrafoM) (r rNuevo : String → ℚ) : ℚ :=
  ∑ v in g.V, |r v - rNuevo v|

/-- Modelled from the spec: the PageRank loop — stop when the L1 change
falls below epsilon (converged = true) or when the fuel runs out
(converged = false), whichever first (spec §4.2). -/
def buclePR (g : GrafoM) : Nat → (String → ℚ) → (String → ℚ) × Bool
  | 0, r => (r, false)
  | n + 1, r =>
    let rNuevo := pasoPR g r
    if diferenciaL1 g r rNuevo < epsilonPR then (rNuevo, true)
    else buclePR g n rNuevo

/-- Modelled from the spec: the uniform initial rank 1/|V| (spec §4.2). -/
def rangoInicial (g : GrafoM) : String → ℚ := fun v =>
  if v ∈ g.V then 1 / (g.V.card : ℚ) else 0

/-- Modelled from the spec: the PageRank computation — power iteration from
the uniform initial rank, bounded by the iteration cap (spec §4.2). -/
def pageRank (g : GrafoM) : (String → ℚ) × Bool :=
  buclePR g maxIteraciones (rangoInicial g)

/-- Two vertices with all four possible edges including both self-loops;
structurally legal per spec §3. -/
def grafoLazos : GrafoM :=
  { V := {"a", "b"}
  , E := {("a", "a"), ("a", "b"), ("b", "a"), ("b", "b")} }

/-- Two vertices and one edge, no self-loops. -/
def grafoDosPuntos : GrafoM :=
  { V := {"a", "b"}, E := {("a", "b")} }

/-- One isolated (dangling) vertex. -/
def grafoUnPunto : GrafoM :=
  { V := {"a"}, E := ∅ }

/-! ### Frontend (src/frontend/src) -/

/-- BusquedaRequest of types/grafo.ts (lines 27-35); merge documents: true
fuses with the existing graph, false/undefined replaces it. -/
structure BusquedaRequest where
  titulo : String
  motor : Option String
  tipo : Option String
  niveles : Option Nat
  max_hijos : Option Nat
  api_key : Option String
  merge : Option Bool
deriving DecidableEq, Repr

/-- The request handleSearch actually posts (App.tsx lines 60-68): the
incoming request spread with merge set to true. -/
def requestConMerge (request : BusquedaRequest) : BusquedaRequest :=
  { request with merge := some true }

/-- EstadisticasResponse of types/grafo.ts (lines 126-131). -/
structure EstadisticasResponse where
  num_vertices : Nat
  num_aristas : Nat
  densidad : ℚ
  grafo_vacio : Bool
deriving DecidableEq, Repr

/-- The data part of a vis.js node, VisNodeData of types/grafo.ts. -/
structure VisNodeData where
  year : Option Int
  citationCount : Nat
  doi : Option String
  authors : List String
  tipo : Option String
  capa : Int
deriving DecidableEq, Repr

/-- A vis.js node, VisNode of types/grafo.ts. -/
structure VisNode where
  id : String
  label : String
  title : String
  color : String
  size : ℚ
  hidden : Option Bool
  data : VisNodeData
deriving DecidableEq, Repr

/-- A vis.js edge, VisEdge of types/grafo.ts; `from` is reserved in Lean, so
the endpoints are named origen/destino. -/
structure VisEdge where
  id : Nat
  origen : String
  destino : String
  value : Option ℚ
deriving DecidableEq, Repr

/-- VisJSData of types/grafo.ts. -/
structure VisJSData where
  nodes : List VisNode
  edges : List VisEdge
deriving DecidableEq, Repr

/-- The body importarGrafo posts to /grafo/importar (services/api.ts lines
141-145): {nodes, edges, merge}. -/
structure ImportarGrafoBody where
  nodes : List VisNode
  edges : List VisEdge
  merge : Bool
deriving DecidableEq, Repr

/-- The merge value importarGrafo uses when the caller omits the argument
(services/api.ts line 129: merge = false). -/
def importarGrafoMergePorDefecto : Bool := false

/-- importarGrafo of services/api.ts (lines 127-147): posts the nodes, the
edges and the given merge flag. -/
def importarGrafo (grafoData : VisJSData) (merge : Bool) :
    ImportarGrafoBody :=
  { nodes := grafoData.nodes, edges := grafoData.edges, merge := merge }

/-- shouldMerge of handleLoad (App.tsx lines 254-261): true exactly when the
preceding statistics request succeeded (some) and reported num_vertices > 0;
false when it failed (none). -/
def shouldMerge (estadisticas : Option EstadisticasResponse) : Bool :=
  match estadisticas with
  | some e => decide (0 < e.num_vertices)
  | none => false

/-- handleLoad's import call (App.tsx lines 265-268):
importarGrafo(grafoData, shouldMerge). -/
def handleLoadImporta (grafoData : VisJSData)
    (estadisticas : Option EstadisticasResponse) : ImportarGrafoBody :=
  importarGrafo grafoData (shouldMerge estadisticas)

/-! ### Theorems -/

/-- C1: On the graph with vertices P1{Alice}, P2{Alice,Bob}, P3{} and the
single edge P1→P2, Pass 1 labels P1=A, P2=A, P3=S; Pass 2 relabels P1 and P2
to B because their author sets share Alice; Pass 3 relabels P1 (no incoming
edge from a B vertex) to AB while P2 remains B; the final labels are
P1=AB, P2=B, P3=S. -/
theorem clasificarCitas_grafoEjemplo :
    corrida1 grafoEjemplo "P1" = Etiqueta.A ∧
    corrida1 grafoEjemplo "P2" = Etiqueta.A ∧
    corrida1 grafoEjemplo "P3" = Etiqueta.S ∧
    corrida2 grafoEjemplo grafoEjemplo.aristas (corrida1 grafoEjemplo) "P1"
      = Etiqueta.B ∧
    corrida2 grafoEjemplo grafoEjemplo.aristas (corrida1 grafoEjemplo) "P2"
      = Etiqueta.B ∧
    clasificarCitas grafoEjemplo "P1" = Etiqueta.AB ∧
    clasificarCitas grafoEjemplo "P2" = Etiqueta.B ∧
    clasificarCitas grafoEjemplo "P3" = Etiqueta.S := by
  decide

/-- C7: ClassifyCitations is idempotent — running the full three-pass
classification twice on an unchanged graph yields the same state (hence the
same label for every vertex), because the labels are recomputed from the
current topology alone on every run. -/
theorem correrClasificacion_idempotente (s : EstadoClasificacion) :
    correrClasificacion (correrClasificacion s) = correrClasificacion s :=
  rfl

lemma pintaB_eval (lbl : String → Etiqueta) (u x : String) :
    pintaB lbl u x =
      if x = u ∧ lbl x = Etiqueta.A then Etiqueta.B else lbl x := by
  unfold pintaB
  by_cases hu : lbl u = Etiqueta.A
  · simp only [hu, if_true, Function.update_apply]
    by_cases hx : x = u
    · subst hx; simp [hu]
    · simp [hx]
  · simp only [hu, if_false]
    by_cases hx : x = u
    · subst hx; simp [hu]
    · simp [hx]

lemma pintaB_doble (lbl : String → Etiqueta) (u w x : String) :
    pintaB (pintaB lbl u) w x =
      if (x = u ∨ x = w) ∧ lbl x = Etiqueta.A then Etiqueta.B else lbl x := by
  simp only [pintaB_eval]
  by_cases hxw : x = w
  · subst hxw
    by_cases hxu : x = u
    · subst hxu
      by_cases hA : lbl x = Etiqueta.A <;> simp [hA]
    · by_cases hA : lbl x = Etiqueta.A <;> simp [hxu, hA]
  · by_cases hxu : x = u
    · subst hxu
      by_cases hA : lbl x = Etiqueta.A <;> simp [hxw, hA]
    · simp [hxw, hxu]

/-- Closed form of Pass 2 under any processing order: a vertex currently
labeled A that touches a self-citation edge of the list ends B; every other
vertex keeps its incoming label. -/
lemma corrida2_eval (g : GrafoAB) (l : List (String × String)) :
    ∀ (lbl : String → Etiqueta) (x : String),
      corrida2 g l lbl x =
        if lbl x = Etiqueta.A ∧ tocaAutoCita g l x then Etiqueta.B
        else lbl x := by
  induction l with
  | nil => intro lbl x; simp [corrida2, tocaAutoCita]
  | cons e es ih =>
    intro lbl x
    show corrida2 g es
        (if autoCita g e then pintaB (pintaB lbl e.1) e.2 else lbl) x = _
    by_cases hc : autoCita g e = true
    · rw [if_pos hc, ih]
      rw [pintaB_doble]
      by_cases hep : x = e.1 ∨ x = e.2
      · by_cases hA : lbl x = Etiqueta.A
        · have hB : (if (x = e.1 ∨ x = e.2) ∧ lbl x = Etiqueta.A
              then Etiqueta.B else lbl x) = Etiqueta.B := by
            simp [hep, hA]
          rw [hB]
          have htoca : tocaAutoCita g (e :: es) x :=
            ⟨e, List.mem_cons_self e es, hc, hep⟩
          simp [htoca, hA]
        · have hKeep : (if (x = e.1 ∨ x = e.2) ∧ lbl x = Etiqueta.A
              then Etiqueta.B else lbl x) = lbl x := by
            simp [hA]
          rw [hKeep]
          simp [hA]
      · have hKeep : (if (x = e.1 ∨ x = e.2) ∧ lbl x = Etiqueta.A
            then Etiqueta.B else lbl x) = lbl x := by
          simp [hep]
        rw [hKeep]
        have hiff : tocaAutoCita g (e :: es) x ↔ tocaAutoCita g es x := by
          constructor
          · rintro ⟨f, hf, hcf, hxf⟩
            rcases List.mem_cons.mp hf with hfe | hfes
            · subst hfe; exact absurd hxf hep
            · exact ⟨f, hfes, hcf, hxf⟩
          · rintro ⟨f, hf, hcf, hxf⟩
            exact ⟨f, List.mem_cons_of_mem e hf, hcf, hxf⟩
        simp only [hiff]
    · rw [if_neg hc, ih]
      have hiff : tocaAutoCita g (e :: es) x ↔ tocaAutoCita g es x := by
        constructor
        · rintro ⟨f, hf, hcf, hxf⟩
          rcases List.mem_cons.mp hf with hfe | hfes
          · subst hfe; exact absurd hcf hc
          · exact ⟨f, hfes, hcf, hxf⟩
        · rintro ⟨f, hf, hcf, hxf⟩
          exact ⟨f, List.mem_cons_of_mem e hf, hcf, hxf⟩
      simp only [hiff]

lemma comparteAutores_ne_nil {a b : List String}
    (h : comparteAutores a b = true) : a ≠ [] ∧ b ≠ [] := by
  rcases List.any_eq_true.mp h with ⟨x, hx, hy⟩
  rcases List.any_eq_true.mp hy with ⟨y, hyb, _⟩
  exact ⟨List.ne_nil_of_mem hx, List.ne_nil_of_mem hyb⟩

lemma corrida1_eq_A_of_autores {g : GrafoAB} {x : String}
    (h : autoresDe g x ≠ []) : corrida1 g x = Etiqueta.A := by
  unfold corrida1
  unfold autoresDe at h
  cases hf : g.vertices.find? (fun v => v.id = x) with
  | none => rw [hf] at h; exact absurd rfl h
  | some v =>
    rw [hf] at h
    simp [h]

lemma corrida1_ne_B (g : GrafoAB) (x : String) :
    corrida1 g x ≠ Etiqueta.B := by
  unfold corrida1
  cases g.vertices.find? (fun v => v.id = x) with
  | none => simp
  | some v =>
    by_cases h : v.autores = [] <;> simp [h]

/-- C6: Pass 2 is order-independent: for every graph and every order l of its
directed edges, a vertex ends Pass 2 labeled B exactly when it is an endpoint
of an edge whose author sets intersect case-insensitively; moreover a B label
acquired after a prefix of the processing order is never undone by the rest
of the pass. -/
theorem corrida2_orden_independiente (g : GrafoAB)
    (l : List (String × String)) (h : l.Perm g.aristas) (x : String) :
    (corrida2 g l (corrida1 g) x = Etiqueta.B ↔
      ∃ e ∈ g.aristas, autoCita g e = true ∧ (x = e.1 ∨ x = e.2)) ∧
    (∀ l₁ l₂, l = l₁ ++ l₂ →
      corrida2 g l₁ (corrida1 g) x = Etiqueta.B →
      corrida2 g l (corrida1 g) x = Etiqueta.B) := by
  have htoca : tocaAutoCita g l x ↔ tocaAutoCita g g.aristas x := by
    constructor
    · rintro ⟨e, he, hc, hx⟩; exact ⟨e, h.mem_iff.mp he, hc, hx⟩
    · rintro ⟨e, he, hc, hx⟩; exact ⟨e, h.mem_iff.mpr he, hc, hx⟩
  constructor
  · rw [corrida2_eval]
    constructor
    · intro hB
      by_cases hcond : corrida1 g x = Etiqueta.A ∧ tocaAutoCita g l x
      · exact htoca.mp hcond.2
      · rw [if_neg hcond] at hB
        exact absurd hB (corrida1_ne_B g x)
    · intro hex
      have htl : tocaAutoCita g l x := htoca.mpr hex
      have hA : corrida1 g x = Etiqueta.A := by
        rcases htl with ⟨e, _, hc, hx⟩
        rcases comparteAutores_ne_nil hc with ⟨h1, h2⟩
        rcases hx with hx1 | hx2
        · exact corrida1_eq_A_of_autores (hx1 ▸ h1)
        · exact corrida1_eq_A_of_autores (hx2 ▸ h2)
      rw [if_pos ⟨hA, htl⟩]
  · intro l₁ l₂ hsplit hB
    rw [corrida2_eval] at hB ⊢
    by_cases hcond : corrida1 g x = Etiqueta.A ∧ tocaAutoCita g l₁ x
    · have : tocaAutoCita g l x := by
        rcases hcond.2 with ⟨e, he, hc, hx⟩
        exact ⟨e, hsplit ▸ List.mem_append_left l₂ he, hc, hx⟩
      rw [if_pos ⟨hcond.1, this⟩]
    · rw [if_neg hcond] at hB
      exact absurd hB (corrida1_ne_B g x)

/-- Witness for C6: the reversed edge list of the example graph is a
permutation of its edge list, and the characterization holds there at P1. -/
theorem corrida2_orden_independiente_testigo :
    (grafoEjemplo.aristas.reverse.Perm grafoEjemplo.aristas) ∧
    ((corrida2 grafoEjemplo grafoEjemplo.aristas.reverse
        (corrida1 grafoEjemplo) "P1" = Etiqueta.B ↔
      ∃ e ∈ grafoEjemplo.aristas, autoCita grafoEjemplo e = true ∧
        ("P1" = e.1 ∨ "P1" = e.2)) ∧
    (∀ l₁ l₂, grafoEjemplo.aristas.reverse = l₁ ++ l₂ →
      corrida2 grafoEjemplo l₁ (corrida1 grafoEjemplo) "P1" = Etiqueta.B →
      corrida2 grafoEjemplo grafoEjemplo.aristas.reverse
        (corrida1 grafoEjemplo) "P1" = Etiqueta.B)) :=
  ⟨List.reverse_perm _,
    corrida2_orden_independiente grafoEjemplo grafoEjemplo.aristas.reverse
      (List.reverse_perm _) "P1"⟩


/-! ### Lemmas for the GraphStore merge -/

lemma prefiere_none_izq (b : Option α) : prefiere none b = b := rfl

lemma prefiere_none_der (a : Option α) : prefiere a none = a := by
  cases a <;> rfl

lemma prefiere_assoc (a b c : Option α) :
    prefiere (prefiere a b) c = prefiere a (prefiere b c) := by
  cases a <;> rfl

lemma prefiere_idem (a : Option α) : prefiere a a = a := by
  cases a <;> rfl

lemma prefiere_absorbe (a b : Option α) :
    prefiere a (prefiere a b) = prefiere a b := by
  cases a <;> rfl

lemma prefiere_absorbe2 (a b : Option α) :
    prefiere a (prefiere b (prefiere a b)) = prefiere a b := by
  cases a <;> cases b <;> rfl

lemma listaNueva_nil_izq (b : List String) : listaNueva [] b = b := rfl

lemma listaNueva_nil_der (a : List String) : listaNueva a [] = a := by
  by_cases h : a = [] <;> simp [listaNueva, h]

lemma listaNueva_assoc (a b c : List String) :
    listaNueva (listaNueva a b) c = listaNueva a (listaNueva b c) := by
  by_cases ha : a = [] <;> by_cases hb : b = [] <;>
    simp [listaNueva, ha, hb]

lemma listaNueva_idem (a : List String) : listaNueva a a = a := by
  by_cases h : a = [] <;> simp [listaNueva, h]

lemma listaNueva_absorbe (a b : List String) :
    listaNueva a (listaNueva a b) = listaNueva a b := by
  by_cases h : a = [] <;> simp [listaNueva, h]

lemma listaNueva_absorbe2 (a b : List String) :
    listaNueva a (listaNueva b (listaNueva a b)) = listaNueva a b := by
  by_cases ha : a = [] <;> by_cases hb : b = [] <;>
    simp [listaNueva, ha, hb]

lemma foldl_prefiere (l : List (Option α)) :
    ∀ b, l.foldl (fun a x => prefiere x a) b = prefiere (ultimo l) b := by
  induction l with
  | nil => intro b; rfl
  | cons x xs ih =>
    intro b
    have hc : ultimo (x :: xs) = prefiere (ultimo xs) x := by
      show xs.foldl _ (prefiere x none) = _
      rw [ih, prefiere_none_der]
    show xs.foldl _ (prefiere x b) = _
    rw [ih, hc, prefiere_assoc]

lemma ultimo_cons (x : Option α) (l : List (Option α)) :
    ultimo (x :: l) = prefiere (ultimo l) x := by
  show l.foldl _ (prefiere x none) = _
  rw [foldl_prefiere, prefiere_none_der]

lemma ultimo_append (a b : List (Option α)) :
    ultimo (a ++ b) = prefiere (ultimo b) (ultimo a) := by
  show (a ++ b).foldl _ none = _
  rw [List.foldl_append]
  exact foldl_prefiere b (ultimo a)

lemma foldl_listaNueva (l : List (List String)) :
    ∀ b, l.foldl (fun a x => listaNueva x a) b
      = listaNueva (ultimaListaNE l) b := by
  induction l with
  | nil => intro b; rfl
  | cons x xs ih =>
    intro b
    have hc : ultimaListaNE (x :: xs) = listaNueva (ultimaListaNE xs) x := by
      show xs.foldl _ (listaNueva x []) = _
      rw [ih, listaNueva_nil_der]
    show xs.foldl _ (listaNueva x b) = _
    rw [ih, hc, listaNueva_assoc]

lemma ultimaListaNE_cons (x : List String) (l : List (List String)) :
    ultimaListaNE (x :: l) = listaNueva (ultimaListaNE l) x := by
  show l.foldl _ (listaNueva x []) = _
  rw [foldl_listaNueva, listaNueva_nil_der]

lemma ultimaListaNE_append (a b : List (List String)) :
    ultimaListaNE (a ++ b)
      = listaNueva (ultimaListaNE b) (ultimaListaNE a) := by
  show (a ++ b).foldl _ [] = _
  rw [List.foldl_append]
  exact foldl_listaNueva b (ultimaListaNE a)



/-- Closed form of a sequence of fill-don't-erase refreshes: per field, the
last present incoming value wins, otherwise the base value survives. -/
lemma foldl_refrescar (l : List Vertice) :
    ∀ o : Vertice,
      l.foldl refrescar o =
        { id := o.id
        , title := prefiere (ultimo (l.map (fun v => v.title))) o.title
        , authors :=
            listaNueva (ultimaListaNE (l.map (fun v => v.authors))) o.authors
        , year := prefiere (ultimo (l.map (fun v => v.year))) o.year
        , venue := prefiere (ultimo (l.map (fun v => v.venue))) o.venue
        , doi := prefiere (ultimo (l.map (fun v => v.doi))) o.doi
        , abstract :=
            prefiere (ultimo (l.map (fun v => v.abstract))) o.abstract
        , citationCount :=
            prefiere (ultimo (l.map (fun v => v.citationCount)))
              o.citationCount
        , url := prefiere (ultimo (l.map (fun v => v.url))) o.url
        , layer := prefiere (ultimo (l.map (fun v => v.layer))) o.layer
        , origin := prefiere (ultimo (l.map (fun v => v.origin))) o.origin
        } := by
  induction l with
  | nil => intro o; rfl
  | cons v vs ih =>
    intro o
    show vs.foldl refrescar (refrescar o v) = _
    rw [ih]
    simp only [refrescar, List.map_cons, ultimo_cons, ultimaListaNE_cons,
      prefiere_assoc, listaNueva_assoc]

lemma refrescar_replay (o : Vertice) (l : List Vertice) :
    l.foldl refrescar (l.foldl refrescar o) = l.foldl refrescar o := by
  have h : l.foldl refrescar (l.foldl refrescar o)
      = (l ++ l).foldl refrescar o := (List.foldl_append ..).symm
  rw [h, foldl_refrescar, foldl_refrescar]
  simp only [List.map_append, ultimo_append, ultimaListaNE_append,
    prefiere_assoc, listaNueva_assoc, prefiere_absorbe, listaNueva_absorbe]

lemma refrescar_replay_cabeza (v : Vertice) (t : List Vertice) :
    (v :: t).foldl refrescar (t.foldl refrescar v) = t.foldl refrescar v := by
  show t.foldl refrescar (refrescar (t.foldl refrescar v) v) = _
  rw [foldl_refrescar t v, foldl_refrescar t]
  simp only [refrescar, prefiere_assoc, listaNueva_assoc,
    prefiere_absorbe2, listaNueva_absorbe2]

lemma foldl_mOpt_some (l : List Vertice) :
    ∀ o : Vertice, l.foldl mOpt (some o) = some (l.foldl refrescar o) := by
  induction l with
  | nil => intro o; rfl
  | cons v vs ih =>
    intro o
    show vs.foldl mOpt (some (refrescar o v)) = _
    rw [ih]
    rfl

lemma foldl_mOpt_cons_none (v : Vertice) (t : List Vertice) :
    (v :: t).foldl mOpt none = some (t.foldl refrescar v) := by
  show t.foldl mOpt (some v) = _
  exact foldl_mOpt_some t v

/-- Replaying the same per-id merge sequence over its own result is the
identity. -/
lemma foldl_mOpt_replay (b : Option Vertice) (l : List Vertice) :
    l.foldl mOpt (l.foldl mOpt b) = l.foldl mOpt b := by
  cases l with
  | nil => rfl
  | cons v t =>
    cases b with
    | some o =>
      rw [foldl_mOpt_some, foldl_mOpt_some]
      exact congrArg some (refrescar_replay o (v :: t))
    | none =>
      rw [foldl_mOpt_cons_none, foldl_mOpt_some]
      exact congrArg some (refrescar_replay_cabeza v t)


lemma mOpt_isSome (b : Option Vertice) (v : Vertice) : (mOpt b v).isSome := by
  cases b <;> rfl

lemma insertaVertice_verts (s : GraphStore) (v : Vertice) (x : String) :
    ((insertaVertice s v).1).verts x =
      if x = v.id then mOpt (s.verts v.id) v else s.verts x := by
  unfold insertaVertice mOpt
  cases h : s.verts v.id <;> simp [h, Function.update_apply]

lemma insertaVertice_orden_presente {s : GraphStore} {v : Vertice}
    (h : (s.verts v.id).isSome) :
    ((insertaVertice s v).1).orden = s.orden := by
  unfold insertaVertice
  cases hv : s.verts v.id with
  | some o => rfl
  | none => rw [hv] at h; exact absurd h (by simp)

lemma insertaVertice_aristas (s : GraphStore) (v : Vertice) :
    ((insertaVertice s v).1).aristas = s.aristas := by
  unfold insertaVertice
  cases s.verts v.id <;> rfl

lemma insertaVertice_peso (s : GraphStore) (v : Vertice) :
    ((insertaVertice s v).1).peso = s.peso := by
  unfold insertaVertice
  cases s.verts v.id <;> rfl

lemma insertaVertice_no_nuevo {s : GraphStore} {v : Vertice}
    (h : (s.verts v.id).isSome) : (insertaVertice s v).2 = false := by
  unfold insertaVertice
  cases hv : s.verts v.id with
  | some o => rfl
  | none => rw [hv] at h; exact absurd h (by simp)

lemma insertaVertice_isSome_mono {s : GraphStore} {v : Vertice} {x : String}
    (h : (s.verts x).isSome) :
    (((insertaVertice s v).1).verts x).isSome := by
  rw [insertaVertice_verts]
  by_cases hx : x = v.id
  · simp [hx, mOpt_isSome]
  · simp [hx, h]

lemma insertaVertice_id_isSome (s : GraphStore) (v : Vertice) :
    (((insertaVertice s v).1).verts v.id).isSome := by
  rw [insertaVertice_verts]
  simp [mOpt_isSome]

lemma faseV_verts (vb : List Vertice) :
    ∀ (s : GraphStore) (x : String),
      (faseV s vb).verts x = (conId x vb).foldl mOpt (s.verts x) := by
  induction vb with
  | nil => intro s x; rfl
  | cons v vs ih =>
    intro s x
    show (faseV (insertaVertice s v).1 vs).verts x = _
    rw [ih]
    by_cases hv : v.id = x
    · have hfil : conId x (v :: vs) = v :: conId x vs := by
        simp [conId, List.filter_cons, hv]
      rw [hfil]
      show _ = (conId x vs).foldl mOpt (mOpt (s.verts x) v)
      rw [insertaVertice_verts]
      subst hv
      simp
    · have hfil : conId x (v :: vs) = conId x vs := by
        simp [conId, List.filter_cons, hv]
      rw [hfil, insertaVertice_verts]
      have hx : ¬ x = v.id := fun hh => hv hh.symm
      simp [hx]

lemma faseV_aristas (vb : List Vertice) :
    ∀ s : GraphStore, (faseV s vb).aristas = s.aristas := by
  induction vb with
  | nil => intro s; rfl
  | cons v vs ih =>
    intro s
    show (faseV (insertaVertice s v).1 vs).aristas = _
    rw [ih, insertaVertice_aristas]

lemma faseV_peso (vb : List Vertice) :
    ∀ s : GraphStore, (faseV s vb).peso = s.peso := by
  induction vb with
  | nil => intro s; rfl
  | cons v vs ih =>
    intro s
    show (faseV (insertaVertice s v).1 vs).peso = _
    rw [ih, insertaVertice_peso]

lemma faseV_isSome_mono (vb : List Vertice) :
    ∀ {s : GraphStore} {x : String}, (s.verts x).isSome →
      ((faseV s vb).verts x).isSome := by
  induction vb with
  | nil => intro s x h; exact h
  | cons v vs ih =>
    intro s x h
    exact ih (insertaVertice_isSome_mono h)

lemma faseV_ids (vb : List Vertice) :
    ∀ (s : GraphStore) (v : Vertice), v ∈ vb →
      ((faseV s vb).verts v.id).isSome := by
  induction vb with
  | nil => intro s v h; exact absurd h (List.not_mem_nil v)
  | cons w ws ih =>
    intro s v hv
    rcases List.mem_cons.mp hv with hw | hws
    · subst hw
      exact faseV_isSome_mono ws (insertaVertice_id_isSome s v)
    · exact ih _ v hws

lemma faseV_orden_presentes (vb : List Vertice) :
    ∀ s : GraphStore, (∀ v ∈ vb, (s.verts v.id).isSome) →
      (faseV s vb).orden = s.orden := by
  induction vb with
  | nil => intro s _; rfl
  | cons v vs ih =>
    intro s h
    show (faseV (insertaVertice s v).1 vs).orden = _
    rw [ih _ (fun w hw =>
      insertaVertice_isSome_mono (h w (List.mem_cons_of_mem v hw)))]
    exact insertaVertice_orden_presente (h v (List.mem_cons_self v vs))


lemma creaTalon_verts_some {s : GraphStore} {y : String} {o : Vertice}
    (h : s.verts y = some o) : ∀ x, (creaTalon s x).verts y = some o := by
  intro x
  unfold creaTalon
  cases hx : s.verts x with
  | some w => exact h
  | none =>
    show Function.update s.verts x (some (soloId x)) y = some o
    rw [Function.update_apply]
    by_cases hyx : y = x
    · rw [hyx] at h; rw [h] at hx; exact absurd hx (by simp)
    · simp [hyx, h]

lemma creaTalon_aristas (s : GraphStore) (x : String) :
    (creaTalon s x).aristas = s.aristas := by
  unfold creaTalon
  cases s.verts x <;> rfl

lemma creaTalon_peso (s : GraphStore) (x : String) :
    (creaTalon s x).peso = s.peso := by
  unfold creaTalon
  cases s.verts x <;> rfl

lemma insertaArista_peso (s : GraphStore) (a : AristaIn) :
    ((insertaArista s a).1).peso =
      Function.update s.peso (a.origen, a.destino) (a.weight.getD 1) := by
  unfold insertaArista
  by_cases h : (a.origen, a.destino) ∈ s.aristas
  · simp only [h, if_true]
  · simp only [h, if_false]
    rw [creaTalon_peso, creaTalon_peso]

lemma insertaArista_presente {s : GraphStore} {a : AristaIn}
    (h : (a.origen, a.destino) ∈ s.aristas) :
    (insertaArista s a).1 =
      { s with peso :=
          Function.update s.peso (a.origen, a.destino) (a.weight.getD 1) } ∧
    (insertaArista s a).2 = false := by
  unfold insertaArista
  simp only [h, if_true]
  constructor <;> simp

lemma insertaArista_verts_some {s : GraphStore} {y : String} {o : Vertice}
    (h : s.verts y = some o) (a : AristaIn) :
    ((insertaArista s a).1).verts y = some o := by
  unfold insertaArista
  by_cases hm : (a.origen, a.destino) ∈ s.aristas
  · simp only [hm, if_true]; exact h
  · simp only [hm, if_false]
    exact creaTalon_verts_some (creaTalon_verts_some h a.origen) a.destino

lemma insertaArista_mem_mono {s : GraphStore} {k : String × String}
    (h : k ∈ s.aristas) (a : AristaIn) :
    k ∈ ((insertaArista s a).1).aristas := by
  unfold insertaArista
  by_cases hm : (a.origen, a.destino) ∈ s.aristas
  · simp only [hm, if_true]; exact h
  · simp only [hm, if_false]
    rw [creaTalon_aristas, creaTalon_aristas]
    exact List.mem_append_left _ h

lemma insertaArista_agrega (s : GraphStore) (a : AristaIn) :
    (a.origen, a.destino) ∈ ((insertaArista s a).1).aristas := by
  unfold insertaArista
  by_cases hm : (a.origen, a.destino) ∈ s.aristas
  · simp only [hm, if_true]
  · simp only [hm, if_false]
    rw [creaTalon_aristas, creaTalon_aristas]
    simp

lemma faseE_peso (eb : List AristaIn) :
    ∀ s : GraphStore, (faseE s eb).peso = actualizaPesos s.peso eb := by
  induction eb with
  | nil => intro s; rfl
  | cons a es ih =>
    intro s
    show (faseE (insertaArista s a).1 es).peso = _
    rw [ih, insertaArista_peso]
    rfl

lemma faseE_verts_some (eb : List AristaIn) :
    ∀ {s : GraphStore} {y : String} {o : Vertice}, s.verts y = some o →
      (faseE s eb).verts y = some o := by
  induction eb with
  | nil => intro s y o h; exact h
  | cons a es ih =>
    intro s y o h
    exact ih (insertaArista_verts_some h a)

lemma faseE_isSome_mono (eb : List AristaIn) {s : GraphStore} {y : String}
    (h : (s.verts y).isSome) : ((faseE s eb).verts y).isSome := by
  rcases Option.isSome_iff_exists.mp h with ⟨o, ho⟩
  rw [faseE_verts_some eb ho]
  rfl

lemma faseE_mem_mono (eb : List AristaIn) :
    ∀ {s : GraphStore} {k : String × String}, k ∈ s.aristas →
      k ∈ (faseE s eb).aristas := by
  induction eb with
  | nil => intro s k h; exact h
  | cons a es ih =>
    intro s k h
    exact ih (insertaArista_mem_mono h a)

lemma faseE_agrega (eb : List AristaIn) :
    ∀ (s : GraphStore) (a : AristaIn), a ∈ eb →
      (a.origen, a.destino) ∈ (faseE s eb).aristas := by
  induction eb with
  | nil => intro s a h; exact absurd h (List.not_mem_nil a)
  | cons b es ih =>
    intro s a ha
    rcases List.mem_cons.mp ha with hb | hes
    · subst hb
      show (a.origen, a.destino) ∈ (faseE (insertaArista s a).1 es).aristas
      exact faseE_mem_mono es (insertaArista_agrega s a)
    · exact ih _ a hes


lemma faseE_presentes (eb : List AristaIn) :
    ∀ s : GraphStore, (∀ a ∈ eb, (a.origen, a.destino) ∈ s.aristas) →
      (faseE s eb).verts = s.verts ∧ (faseE s eb).orden = s.orden ∧
      (faseE s eb).aristas = s.aristas := by
  induction eb with
  | nil => intro s _; exact ⟨rfl, rfl, rfl⟩
  | cons a es ih =>
    intro s h
    have hp := (insertaArista_presente (h a (List.mem_cons_self a es))).1
    show (faseE (insertaArista s a).1 es).verts = _ ∧ _ ∧ _
    have hrest : ∀ b ∈ es, (b.origen, b.destino) ∈
        ((insertaArista s a).1).aristas := by
      intro b hb
      rw [hp]
      exact h b (List.mem_cons_of_mem a hb)
    rcases ih _ hrest with ⟨h1, h2, h3⟩
    refine ⟨?_, ?_, ?_⟩
    · rw [h1, hp]
    · show (faseE (insertaArista s a).1 es).orden = s.orden
      rw [h2, hp]
    · show (faseE (insertaArista s a).1 es).aristas = s.aristas
      rw [h3, hp]

lemma actualizaPesos_eval (eb : List AristaIn) :
    ∀ (p : String × String → ℚ) (k : String × String),
      actualizaPesos p eb k = (pesoUltimo eb k).getD (p k) := by
  induction eb with
  | nil => intro p k; rfl
  | cons a es ih =>
    intro p k
    have hpe : pesoUltimo (a :: es) k = prefiere (pesoUltimo es k)
        (if (a.origen, a.destino) = k then some (a.weight.getD 1)
          else none) := by
      unfold pesoUltimo
      rw [List.map_cons, ultimo_cons]
    show actualizaPesos
        (Function.update p (a.origen, a.destino) (a.weight.getD 1)) es k = _
    rw [ih, hpe]
    cases hu : pesoUltimo es k with
    | some w => rfl
    | none =>
      show Function.update p (a.origen, a.destino) (a.weight.getD 1) k = _
      rw [Function.update_apply]
      by_cases hk : k = (a.origen, a.destino)
      · simp [hk, prefiere]
      · have hk2 : ¬ (a.origen, a.destino) = k := fun hh => hk hh.symm
        simp [hk, hk2, prefiere]

lemma actualizaPesos_replay (p : String × String → ℚ)
    (eb : List AristaIn) :
    actualizaPesos (actualizaPesos p eb) eb = actualizaPesos p eb := by
  funext k
  rw [actualizaPesos_eval, actualizaPesos_eval]
  cases hu : pesoUltimo eb k <;> simp

lemma foldV_fst (vb : List Vertice) :
    ∀ p : GraphStore × MergeStats,
      (vb.foldl pasoVertice p).1 = faseV p.1 vb := by
  induction vb with
  | nil => intro p; rfl
  | cons v vs ih =>
    intro p
    show (vs.foldl pasoVertice (pasoVertice p v)).1 = _
    rw [ih]
    rfl

lemma foldE_fst (eb : List AristaIn) :
    ∀ p : GraphStore × MergeStats,
      (eb.foldl pasoArista p).1 = faseE p.1 eb := by
  induction eb with
  | nil => intro p; rfl
  | cons a es ih =>
    intro p
    show (es.foldl pasoArista (pasoArista p a)).1 = _
    rw [ih]
    rfl

lemma foldE_vnew (eb : List AristaIn) :
    ∀ p : GraphStore × MergeStats,
      (eb.foldl pasoArista p).2.vertices_new = p.2.vertices_new := by
  induction eb with
  | nil => intro p; rfl
  | cons a es ih =>
    intro p
    show (es.foldl pasoArista (pasoArista p a)).2.vertices_new = _
    rw [ih]
    unfold pasoArista
    cases h2 : (insertaArista p.1 a).2 <;> simp [h2]

lemma foldV_enew (vb : List Vertice) :
    ∀ p : GraphStore × MergeStats,
      (vb.foldl pasoVertice p).2.edges_new = p.2.edges_new := by
  induction vb with
  | nil => intro p; rfl
  | cons v vs ih =>
    intro p
    show (vs.foldl pasoVertice (pasoVertice p v)).2.edges_new = _
    rw [ih]
    unfold pasoVertice
    cases h2 : (insertaVertice p.1 v).2 <;> simp [h2]

lemma foldV_vnew_presentes (vb : List Vertice) :
    ∀ p : GraphStore × MergeStats,
      (∀ v ∈ vb, (p.1.verts v.id).isSome) →
      (vb.foldl pasoVertice p).2.vertices_new = p.2.vertices_new := by
  induction vb with
  | nil => intro p _; rfl
  | cons v vs ih =>
    intro p h
    show (vs.foldl pasoVertice (pasoVertice p v)).2.vertices_new = _
    rw [ih _ (fun w hw =>
      insertaVertice_isSome_mono (h w (List.mem_cons_of_mem v hw)))]
    unfold pasoVertice
    simp [insertaVertice_no_nuevo (h v (List.mem_cons_self v vs))]

lemma foldE_enew_presentes (eb : List AristaIn) :
    ∀ p : GraphStore × MergeStats,
      (∀ a ∈ eb, (a.origen, a.destino) ∈ p.1.aristas) →
      (eb.foldl pasoArista p).2.edges_new = p.2.edges_new := by
  induction eb with
  | nil => intro p _; rfl
  | cons a es ih =>
    intro p h
    show (es.foldl pasoArista (pasoArista p a)).2.edges_new = _
    rw [ih _ (fun b hb =>
      insertaArista_mem_mono (h b (List.mem_cons_of_mem a hb)) a)]
    unfold pasoArista
    simp [(insertaArista_presente (h a (List.mem_cons_self a es))).2]


/-- C2: Merge is idempotent — re-merging a batch already absorbed by the
store leaves the store unchanged and reports vertices_new = 0 and
edges_new = 0. -/
theorem Merge_idempotente (s : GraphStore) (vb : List Vertice)
    (eb : List AristaIn) :
    (Merge (Merge s vb eb).1 vb eb).1 = (Merge s vb eb).1 ∧
    (Merge (Merge s vb eb).1 vb eb).2.vertices_new = 0 ∧
    (Merge (Merge s vb eb).1 vb eb).2.edges_new = 0 := by
  have hM : ∀ t : GraphStore, (Merge t vb eb).1 = faseE (faseV t vb) eb := by
    intro t
    unfold Merge
    rw [foldE_fst, foldV_fst]
  have hs₁ : (Merge s vb eb).1 = faseE (faseV s vb) eb := hM s
  set s₁ := (Merge s vb eb).1 with hs₁def
  have hV : ∀ v ∈ vb, (s₁.verts v.id).isSome := by
    intro v hv
    rw [hs₁]
    exact faseE_isSome_mono eb (faseV_ids vb s v hv)
  have hE : ∀ a ∈ eb, (a.origen, a.destino) ∈ s₁.aristas := by
    intro a ha
    rw [hs₁]
    exact faseE_agrega eb (faseV s vb) a ha
  have htV : faseV s₁ vb = s₁ := by
    apply GraphStore.ext
    · funext x
      rw [faseV_verts]
      cases hcon : conId x vb with
      | nil => rfl
      | cons v₀ t =>
        have hx1 : s₁.verts x = (conId x vb).foldl mOpt (s.verts x) := by
          have hfv : (faseV s vb).verts x
              = (conId x vb).foldl mOpt (s.verts x) := faseV_verts vb s x
          have hsome : ∃ c, (conId x vb).foldl mOpt (s.verts x) = some c := by
            rw [hcon]
            cases hb : s.verts x with
            | some o =>
              exact ⟨(v₀ :: t).foldl refrescar o, foldl_mOpt_some _ o⟩
            | none =>
              exact ⟨t.foldl refrescar v₀, foldl_mOpt_cons_none v₀ t⟩
          rcases hsome with ⟨c, hc⟩
          rw [hs₁,
            faseE_verts_some eb (show (faseV s vb).verts x = some c by
              rw [hfv, hc]),
            hc]
        rw [hcon] at hx1
        rw [hx1]
        exact foldl_mOpt_replay _ _
    · exact faseV_orden_presentes vb s₁ hV
    · exact faseV_aristas vb s₁
    · exact faseV_peso vb s₁
  refine ⟨?_, ?_, ?_⟩
  · rw [hM s₁, htV]
    rcases faseE_presentes eb s₁ hE with ⟨h1, h2, h3⟩
    apply GraphStore.ext
    · exact h1
    · exact h2
    · exact h3
    · rw [faseE_peso]
      have hp1 : s₁.peso = actualizaPesos s.peso eb := by
        rw [hs₁, faseE_peso, faseV_peso]
      rw [hp1, actualizaPesos_replay]
  · show (eb.foldl pasoArista
      (vb.foldl pasoVertice (s₁, ⟨0, 0, 0, 0⟩))).2.vertices_new = 0
    rw [foldE_vnew, foldV_vnew_presentes vb (s₁, ⟨0, 0, 0, 0⟩) hV]
  · show (eb.foldl pasoArista
      (vb.foldl pasoVertice (s₁, ⟨0, 0, 0, 0⟩))).2.edges_new = 0
    have hp1 : (vb.foldl pasoVertice
        (s₁, (⟨0, 0, 0, 0⟩ : MergeStats))).1 = s₁ := by
      rw [foldV_fst]
      exact htV
    rw [foldE_enew_presentes eb _ (by
        intro a ha
        rw [hp1]
        exact hE a ha),
      foldV_enew]


/-- C3: Fill-don't-erase — merging an incoming record whose id is already
stored refreshes the stored vertex with refrescar, and every null or absent
incoming field (including an empty author list) preserves the stored
value. -/
theorem Merge_rellena_no_borra (s : GraphStore) (o vIn : Vertice)
    (h : s.verts vIn.id = some o) :
    ((Merge s [vIn] []).1).verts vIn.id = some (refrescar o vIn) ∧
    (vIn.authors = [] → (refrescar o vIn).authors = o.authors) ∧
    (vIn.title = none → (refrescar o vIn).title = o.title) ∧
    (vIn.year = none → (refrescar o vIn).year = o.year) ∧
    (vIn.venue = none → (refrescar o vIn).venue = o.venue) ∧
    (vIn.doi = none → (refrescar o vIn).doi = o.doi) ∧
    (vIn.abstract = none → (refrescar o vIn).abstract = o.abstract) ∧
    (vIn.citationCount = none →
      (refrescar o vIn).citationCount = o.citationCount) ∧
    (vIn.url = none → (refrescar o vIn).url = o.url) ∧
    (vIn.layer = none → (refrescar o vIn).layer = o.layer) ∧
    (vIn.origin = none → (refrescar o vIn).origin = o.origin) := by
  refine ⟨?_, ?_, ?_, ?_, ?_, ?_, ?_, ?_, ?_, ?_, ?_⟩
  · show ((insertaVertice s vIn).1).verts vIn.id = _
    rw [insertaVertice_verts]
    simp [h, mOpt]
  all_goals intro hn
  · simp [refrescar, hn, listaNueva]
  all_goals simp [refrescar, hn, prefiere]

/-- Witness for C3: merging the all-empty record over the stored rich vertex
keeps every stored field; in particular the authors stay ["A. Smith"]. -/
theorem Merge_rellena_no_borra_testigo :
    tiendaSmith.verts verticeVacio.id = some verticeSmith ∧
    (((Merge tiendaSmith [verticeVacio] []).1).verts verticeVacio.id
        = some (refrescar verticeSmith verticeVacio) ∧
      (verticeVacio.authors = [] →
        (refrescar verticeSmith verticeVacio).authors
          = verticeSmith.authors) ∧
      (verticeVacio.title = none →
        (refrescar verticeSmith verticeVacio).title = verticeSmith.title) ∧
      (verticeVacio.year = none →
        (refrescar verticeSmith verticeVacio).year = verticeSmith.year) ∧
      (verticeVacio.venue = none →
        (refrescar verticeSmith verticeVacio).venue = verticeSmith.venue) ∧
      (verticeVacio.doi = none →
        (refrescar verticeSmith verticeVacio).doi = verticeSmith.doi) ∧
      (verticeVacio.abstract = none →
        (refrescar verticeSmith verticeVacio).abstract
          = verticeSmith.abstract) ∧
      (verticeVacio.citationCount = none →
        (refrescar verticeSmith verticeVacio).citationCount
          = verticeSmith.citationCount) ∧
      (verticeVacio.url = none →
        (refrescar verticeSmith verticeVacio).url = verticeSmith.url) ∧
      (verticeVacio.layer = none →
        (refrescar verticeSmith verticeVacio).layer = verticeSmith.layer) ∧
      (verticeVacio.origin = none →
        (refrescar verticeSmith verticeVacio).origin
          = verticeSmith.origin)) ∧
    (refrescar verticeSmith verticeVacio).authors = ["A. Smith"] :=
  ⟨rfl, Merge_rellena_no_borra tiendaSmith verticeSmith verticeVacio rfl, rfl⟩


lemma creaTalon_ausente {s : GraphStore} {x : String}
    (h : s.verts x = none) :
    creaTalon s x = { s with verts := Function.update s.verts x (some (soloId x)), orden := s.orden ++ [x] } := by
  unfold creaTalon
  rw [h]

/-- C8: Stub-edge creation — merging the single edge (X, Y) into a valid
store holding neither endpoint is not rejected: it creates the two stub
vertices (id only) and one edge, the vertex count grows by 2, the edge
count by 1, and the merge reports edges_new = 1. -/
theorem Merge_talones (s : GraphStore) (X Y : String) (w : Option ℚ)
    (hval : ∀ k ∈ s.aristas, (s.verts k.1).isSome ∧ (s.verts k.2).isSome)
    (hX : s.verts X = none) (hY : s.verts Y = none) (hXY : X ≠ Y) :
    numVertices (Merge s [] [⟨X, Y, w⟩]).1 = numVertices s + 2 ∧
    numAristas (Merge s [] [⟨X, Y, w⟩]).1 = numAristas s + 1 ∧
    ((Merge s [] [⟨X, Y, w⟩]).1).verts X = some (soloId X) ∧
    ((Merge s [] [⟨X, Y, w⟩]).1).verts Y = some (soloId Y) ∧
    (Merge s [] [⟨X, Y, w⟩]).2.edges_new = 1 := by
  have hYX : ¬ Y = X := fun hh => hXY hh.symm
  have hmem : ¬ (X, Y) ∈ s.aristas := by
    intro hm
    have h1 := (hval _ hm).1
    rw [hX] at h1
    simp at h1
  have hT1 := creaTalon_ausente hX
  have hl : ({ s with verts := Function.update s.verts X (some (soloId X)), orden := s.orden ++ [X] } : GraphStore).verts Y = none := by
    show Function.update s.verts X (some (soloId X)) Y = none
    rw [Function.update_apply, if_neg hYX]
    exact hY
  have hT2 : creaTalon (creaTalon s X) Y = { s with verts := Function.update (Function.update s.verts X (some (soloId X))) Y (some (soloId Y)), orden := (s.orden ++ [X]) ++ [Y] } := by
    rw [hT1, creaTalon_ausente hl]
  have hIA : insertaArista s ⟨X, Y, w⟩ = ({ s with verts := Function.update (Function.update s.verts X (some (soloId X))) Y (some (soloId Y)), orden := (s.orden ++ [X]) ++ [Y], aristas := s.aristas ++ [(X, Y)], peso := Function.update s.peso (X, Y) (w.getD 1) }, true) := by
    unfold insertaArista
    simp only [hmem, if_false, hT2]
  have hM : Merge s [] [⟨X, Y, w⟩] = ((insertaArista s ⟨X, Y, w⟩).1, if (insertaArista s ⟨X, Y, w⟩).2 then ({ vertices_new := 0, vertices_updated := 0, edges_new := 0 + 1, edges_existing := 0 } : MergeStats) else ({ vertices_new := 0, vertices_updated := 0, edges_new := 0, edges_existing := 0 + 1 } : MergeStats)) := rfl
  rw [hM, hIA]
  refine ⟨?_, ?_, ?_, ?_, ?_⟩
  · simp [numVertices]
  · simp [numAristas]
  · show Function.update (Function.update s.verts X (some (soloId X))) Y (some (soloId Y)) X = some (soloId X)
    rw [Function.update_apply, if_neg hXY, Function.update_apply]
    simp
  · show Function.update (Function.update s.verts X (some (soloId X))) Y (some (soloId Y)) Y = some (soloId Y)
    rw [Function.update_apply]
    simp
  · rfl

/-- Witness for C8: merging the edge (x, y) into the empty store creates the
two stubs and the edge. -/
theorem Merge_talones_testigo :
    (∀ k ∈ tiendaVacia.aristas,
      (tiendaVacia.verts k.1).isSome ∧ (tiendaVacia.verts k.2).isSome) ∧
    tiendaVacia.verts "x" = none ∧ tiendaVacia.verts "y" = none ∧
    "x" ≠ "y" ∧
    (numVertices (Merge tiendaVacia [] [⟨"x", "y", none⟩]).1
        = numVertices tiendaVacia + 2 ∧
      numAristas (Merge tiendaVacia [] [⟨"x", "y", none⟩]).1
        = numAristas tiendaVacia + 1 ∧
      ((Merge tiendaVacia [] [⟨"x", "y", none⟩]).1).verts "x"
        = some (soloId "x") ∧
      ((Merge tiendaVacia [] [⟨"x", "y", none⟩]).1).verts "y"
        = some (soloId "y") ∧
      (Merge tiendaVacia [] [⟨"x", "y", none⟩]).2.edges_new = 1) :=
  ⟨by simp [tiendaVacia], rfl, rfl, by decide,
    Merge_talones tiendaVacia "x" "y" none (by simp [tiendaVacia]) rfl rfl
      (by decide)⟩


/-- C9: Every search submitted through handleSearch is posted with merge set
to some true, whatever merge value the incoming BusquedaRequest carried, and
every other request field is forwarded unchanged — so a UI search always
fuses with the existing graph and never replaces it. -/
theorem handleSearch_siempre_fusiona (request : BusquedaRequest) :
    (requestConMerge request).merge = some true ∧
    (requestConMerge request).merge ≠ some false ∧
    (requestConMerge request).merge ≠ none ∧
    (requestConMerge request).titulo = request.titulo ∧
    (requestConMerge request).motor = request.motor ∧
    (requestConMerge request).tipo = request.tipo ∧
    (requestConMerge request).niveles = request.niveles ∧
    (requestConMerge request).max_hijos = request.max_hijos ∧
    (requestConMerge request).api_key = request.api_key :=
  ⟨rfl, by simp [requestConMerge], by simp [requestConMerge],
    rfl, rfl, rfl, rfl, rfl, rfl⟩

/-- C10: handleLoad imports with merge = true exactly when the preceding
statistics request succeeded and reported num_vertices > 0; when that
request failed or reported zero vertices the import is sent with
merge = false, importarGrafo's default, and the nodes and edges are
forwarded unchanged. -/
theorem handleLoad_decide_fusion (grafoData : VisJSData)
    (estadisticas : Option EstadisticasResponse) :
    ((handleLoadImporta grafoData estadisticas).merge = true ↔
      ∃ e, estadisticas = some e ∧ 0 < e.num_vertices) ∧
    (estadisticas = none →
      (handleLoadImporta grafoData estadisticas).merge
        = importarGrafoMergePorDefecto) ∧
    (∀ e, estadisticas = some e → e.num_vertices = 0 →
      (handleLoadImporta grafoData estadisticas).merge
        = importarGrafoMergePorDefecto) ∧
    (handleLoadImporta grafoData estadisticas).nodes = grafoData.nodes ∧
    (handleLoadImporta grafoData estadisticas).edges = grafoData.edges := by
  refine ⟨?_, ?_, ?_, rfl, rfl⟩
  · cases estadisticas with
    | none =>
      simp [handleLoadImporta, importarGrafo, shouldMerge]
    | some e =>
      simp [handleLoadImporta, importarGrafo, shouldMerge]
  · intro h
    subst h
    rfl
  · intro e h h0
    subst h
    simp [handleLoadImporta, importarGrafo, shouldMerge, h0,
      importarGrafoMergePorDefecto]


/-- Counterexample for C4: the two-vertex graph with all four edges,
including both structurally legal self-loops, is a valid graph whose
density is 2, violating the claimed bound density ≤ 1. -/
theorem densidad_lazos_contraejemplo :
    esValido grafoLazos ∧ densidad grafoLazos = 2 ∧
    ¬ (densidad grafoLazos ≤ 1) := by
  have hV : grafoLazos.V.card = 2 := by decide
  have hE : grafoLazos.E.card = 4 := by decide
  have hd : densidad grafoLazos = 2 := by
    unfold densidad
    rw [hV, hE, if_neg (by norm_num)]
    norm_num
  exact ⟨by decide, hd, by rw [hd]; norm_num⟩

/-- C4 (amended): for every graph the density is non-negative, equals 0 when
|V| < 2 and equals |E| / (|V| * (|V| - 1)) when |V| >= 2; the upper bound
density ≤ 1 holds for every valid graph with no self-loop edge (with
self-loops the numerator counts edges the denominator does not, and the
bound can fail). -/
theorem densidad_acotada (g : GrafoM) :
    0 ≤ densidad g ∧
    (g.V.card < 2 → densidad g = 0) ∧
    (2 ≤ g.V.card → densidad g =
      (g.E.card : ℚ) / ((g.V.card : ℚ) * ((g.V.card : ℚ) - 1))) ∧
    (esValido g → sinLazos g → densidad g ≤ 1) := by
  refine ⟨?_, ?_, ?_, ?_⟩
  · unfold densidad
    by_cases h2 : g.V.card < 2
    · simp [h2]
    · rw [if_neg h2]
      push_neg at h2
      have hN : (2 : ℚ) ≤ (g.V.card : ℚ) := by exact_mod_cast h2
      apply div_nonneg
      · positivity
      · nlinarith
  · intro h
    simp [densidad, h]
  · intro h
    simp [densidad, Nat.not_lt.mpr h]
  · intro hval hnl
    have hsub : g.E ⊆ g.V.offDiag := by
      intro e he
      rcases hval e he with ⟨h1, h2⟩
      exact Finset.mem_offDiag.mpr ⟨h1, h2, hnl e he⟩
    have hcard : g.E.card ≤ g.V.card * g.V.card - g.V.card := by
      calc g.E.card ≤ g.V.offDiag.card := Finset.card_le_card hsub
      _ = g.V.card * g.V.card - g.V.card := Finset.offDiag_card g.V
    unfold densidad
    by_cases h2 : g.V.card < 2
    · simp [h2]
    · rw [if_neg h2]
      push_neg at h2
      have hN : (2 : ℚ) ≤ (g.V.card : ℚ) := by exact_mod_cast h2
      have hden : 0 < (g.V.card : ℚ) * ((g.V.card : ℚ) - 1) := by nlinarith
      rw [div_le_one hden]
      have hle : g.V.card ≤ g.V.card * g.V.card :=
        Nat.le_mul_of_pos_left _ (by omega)
      have hq : (g.E.card : ℚ)
          ≤ (g.V.card : ℚ) * (g.V.card : ℚ) - (g.V.card : ℚ) := by
        have h1 : (g.E.card : ℚ)
            ≤ ((g.V.card * g.V.card - g.V.card : ℕ) : ℚ) := by
          exact_mod_cast hcard
        rw [Nat.cast_sub hle, Nat.cast_mul] at h1
        exact h1
      nlinarith

/-- Witness for C4 (amended): the loop-free two-vertex one-edge graph
realizes every conjunct, the conditional bound included. -/
theorem densidad_acotada_testigo :
    0 ≤ densidad grafoDosPuntos ∧
    (grafoDosPuntos.V.card < 2 → densidad grafoDosPuntos = 0) ∧
    (2 ≤ grafoDosPuntos.V.card → densidad grafoDosPuntos =
      (grafoDosPuntos.E.card : ℚ) /
        ((grafoDosPuntos.V.card : ℚ) *
          ((grafoDosPuntos.V.card : ℚ) - 1))) ∧
    (esValido grafoDosPuntos ∧ sinLazos grafoDosPuntos ∧
      densidad grafoDosPuntos ≤ 1) :=
  ⟨(densidad_acotada grafoDosPuntos).1,
    (densidad_acotada grafoDosPuntos).2.1,
    (densidad_acotada grafoDosPuntos).2.2.1,
    by decide, by decide,
    (densidad_acotada grafoDosPuntos).2.2.2 (by decide) (by decide)⟩

lemma suma_rangoInicial (g : GrafoM) (hne : g.V.Nonempty) :
    ∑ v in g.V, rangoInicial g v = 1 := by
  have hN : (g.V.card : ℚ) ≠ 0 :=
    Nat.cast_ne_zero.mpr (Finset.card_ne_zero.mpr hne)
  have hcong : ∑ v in g.V, rangoInicial g v
      = ∑ _v in g.V, 1 / (g.V.card : ℚ) :=
    Finset.sum_congr rfl (fun v hv => by simp [rangoInicial, hv])
  rw [hcong, Finset.sum_const, nsmul_eq_mul]
  field_simp

/-- One PageRank iteration preserves the total rank: the teleportation terms
contribute 1 - d, the link mass redistributes the rank of non-dangling
vertices, and the dangling mass redistributes the rest. -/
lemma suma_pasoPR (g : GrafoM) (hval : esValido g) (hne : g.V.Nonempty)
    (r : String → ℚ) (hr : ∑ v in g.V, r v = 1) :
    ∑ v in g.V, pasoPR g r v = 1 := by
  have hN : (g.V.card : ℚ) ≠ 0 :=
    Nat.cast_ne_zero.mpr (Finset.card_ne_zero.mpr hne)
  have hcong : ∑ v in g.V, pasoPR g r v
      = ∑ v in g.V, ((1 - amortiguacion) / (g.V.card : ℚ)
          + amortiguacion *
              ((∑ e in g.E.filter (fun e => e.2 = v),
                  r e.1 / (gradoSalida g e.1 : ℚ))
                + masaColgante g r / (g.V.card : ℚ))) :=
    Finset.sum_congr rfl (fun v hv => by simp [pasoPR, hv])
  rw [hcong, Finset.sum_add_distrib, Finset.sum_const, nsmul_eq_mul,
    ← Finset.mul_sum, Finset.sum_add_distrib, Finset.sum_const,
    nsmul_eq_mul]
  have hlinks : ∑ v in g.V, ∑ e in g.E.filter (fun e => e.2 = v),
        r e.1 / (gradoSalida g e.1 : ℚ)
      = ∑ e in g.E, r e.1 / (gradoSalida g e.1 : ℚ) :=
    Finset.sum_fiberwise_of_maps_to (fun e he => (hval e he).2) _
  have hedges : ∑ e in g.E, r e.1 / (gradoSalida g e.1 : ℚ)
      = ∑ u in g.V, ∑ e in g.E.filter (fun e => e.1 = u),
          r e.1 / (gradoSalida g e.1 : ℚ) :=
    (Finset.sum_fiberwise_of_maps_to (fun e he => (hval e he).1) _).symm
  have hfib : ∀ u ∈ g.V,
      ∑ e in g.E.filter (fun e => e.1 = u),
          r e.1 / (gradoSalida g e.1 : ℚ)
        = (gradoSalida g u : ℚ) * (r u / (gradoSalida g u : ℚ)) := by
    intro u hu
    have hval2 : ∀ e ∈ g.E.filter (fun e => e.1 = u),
        r e.1 / (gradoSalida g e.1 : ℚ)
          = r u / (gradoSalida g u : ℚ) := by
      intro e he
      rw [(Finset.mem_filter.mp he).2]
    rw [Finset.sum_congr rfl hval2, Finset.sum_const, nsmul_eq_mul]
    rfl
  have hsplit : ∑ u in g.V,
        (gradoSalida g u : ℚ) * (r u / (gradoSalida g u : ℚ))
      = ∑ u in g.V.filter (fun u => ¬ gradoSalida g u = 0), r u := by
    rw [← Finset.sum_filter_add_sum_filter_not g.V
      (fun u => gradoSalida g u = 0)]
    have hz : ∑ u in g.V.filter (fun u => gradoSalida g u = 0),
        (gradoSalida g u : ℚ) * (r u / (gradoSalida g u : ℚ)) = 0 :=
      Finset.sum_eq_zero (fun u hu => by
        rw [(Finset.mem_filter.mp hu).2]
        simp)
    have hnz : ∑ u in g.V.filter (fun u => ¬ gradoSalida g u = 0),
          (gradoSalida g u : ℚ) * (r u / (gradoSalida g u : ℚ))
        = ∑ u in g.V.filter (fun u => ¬ gradoSalida g u = 0), r u :=
      Finset.sum_congr rfl (fun u hu => by
        have h0 : (gradoSalida g u : ℚ) ≠ 0 :=
          Nat.cast_ne_zero.mpr (Finset.mem_filter.mp hu).2
        field_simp)
    rw [hz, hnz, zero_add]
  have h5 : ∑ u in g.V, ∑ e in g.E.filter (fun e => e.1 = u),
        r e.1 / (gradoSalida g e.1 : ℚ)
      = ∑ u in g.V,
          (gradoSalida g u : ℚ) * (r u / (gradoSalida g u : ℚ)) :=
    Finset.sum_congr rfl hfib
  rw [hlinks, hedges, h5, hsplit]
  have hc1 : (g.V.card : ℚ) * ((1 - amortiguacion) / (g.V.card : ℚ))
      = 1 - amortiguacion := by field_simp
  have hc2 : (g.V.card : ℚ) * (masaColgante g r / (g.V.card : ℚ))
      = masaColgante g r := by field_simp
  rw [hc1, hc2]
  have hDM : masaColgante g r
      = ∑ u in g.V.filter (fun u => gradoSalida g u = 0), r u := rfl
  have hpart : ∑ u in g.V.filter (fun u => gradoSalida g u = 0), r u
      + ∑ u in g.V.filter (fun u => ¬ gradoSalida g u = 0), r u = 1 := by
    rw [Finset.sum_filter_add_sum_filter_not]
    exact hr
  rw [hDM]
  have hfin : ∑ u in g.V.filter (fun u => ¬ gradoSalida g u = 0), r u
      + ∑ u in g.V.filter (fun u => gradoSalida g u = 0), r u = 1 := by
    rw [add_comm]
    exact hpart
  rw [hfin]
  ring

lemma buclePR_suma (g : GrafoM) (hval : esValido g) (hne : g.V.Nonempty) :
    ∀ (n : Nat) (r : String → ℚ), ∑ v in g.V, r v = 1 →
      ∑ v in g.V, (buclePR g n r).1 v = 1 := by
  intro n
  induction n with
  | zero => intro r hr; exact hr
  | succ m ih =>
    intro r hr
    show ∑ v in g.V,
      (if diferenciaL1 g r (pasoPR g r) < epsilonPR then (pasoPR g r, true)
        else buclePR g m (pasoPR g r)).1 v = 1
    by_cases hc : diferenciaL1 g r (pasoPR g r) < epsilonPR
    · rw [if_pos hc]
      exact suma_pasoPR g hval hne r hr
    · rw [if_neg hc]
      exact ih (pasoPR g r) (suma_pasoPR g hval hne r hr)

/-- C5: PageRank conservation — on every valid non-empty graph the ranks the
PageRank loop returns sum to 1 exactly, whether it stopped through the
convergence test or through the iteration cap. -/
theorem pageRank_conserva (g : GrafoM) (hval : esValido g)
    (hne : g.V.Nonempty) :
    ∑ v in g.V, (pageRank g).1 v = 1 :=
  buclePR_suma g hval hne maxIteraciones (rangoInicial g)
    (suma_rangoInicial g hne)

/-- Witness for C5: the one-vertex dangling graph is valid and non-empty,
and its PageRank sums to 1. -/
theorem pageRank_conserva_testigo :
    esValido grafoUnPunto ∧ grafoUnPunto.V.Nonempty ∧
    ∑ v in grafoUnPunto.V, (pageRank grafoUnPunto).1 v = 1 :=
  ⟨by decide, ⟨"a", by decide⟩,
    pageRank_conserva grafoUnPunto (by decide) ⟨"a", by decide⟩⟩

end WebAppGomez
